import Mathlib

/-!
FnordMetric metricdb: the in-memory metric backend and the HTTP ingestion handler.

A shallow embedding of

* `metricdb/backends/inmemory/metric.cc` (`Metric::Metric`, `insertSampleImpl`,
  `scanSamples`, `totalBytes`, `lastInsertTime`, `labels`, `hasLabel`),
* `metricdb/metric.h` (`IMetric`),
* `metricdb/httpapi.cc` (`HTTPAPI::insertSample`),

followed by the properties established about them.

Conventions of the embedding:

* A mutating member function becomes a function from the object state to the new state.
* The single call `WallClock::unixMicros()` made by `insertSampleImpl` becomes the extra
  argument `unixMicros` (the reading that call obtains).
* A visitor `std::function<bool (Sample*)>` may capture state, so it is a function
  `Sample → σ → Bool × σ`; a scan returns the list of invocations it made (the sample passed
  and the boolean returned) together with the final visitor state.
* `uint64_t` timestamps are natural numbers; no arithmetic is performed on them.
* The mutexes are not modelled: every property below is about sequential calls.
-/

namespace fnordmetric
namespace metricdb

/-- Modelled from the spec: `fnord::util::DateTime` (its header is not part of the sources at
hand) is a timestamp with microsecond resolution built from a `uint64_t`; `<` and `>=` compare
the underlying number. -/
abbrev DateTime := Nat

/-- A `double`, represented by its IEEE-754 binary64 bit pattern. The metric code only stores
and copies these values. -/
abbrev Double := Nat

/-- The type `std::vector<std::pair<std::string, std::string>>`. -/
abbrev LabelList := List (String × String)

/-- Modelled from the spec: class `Sample` (`sample.h` is not part of the sources at hand), an
immutable value object with a timestamp, a floating-point value and an ordered list of label
pairs, built by `Sample(time, value, labels)`. -/
structure Sample where
  time : DateTime
  value : Double
  labels : LabelList
deriving DecidableEq, Repr

namespace inmemory_backend

/-- The aggregate `MemSample` stored in `values_` (fields `.time`, `.value`, `.labels`). -/
structure MemSample where
  time : DateTime
  value : Double
  labels : LabelList
deriving DecidableEq, Repr

/-- The data members of `inmemory_backend::Metric` (with `key_` inherited from `IMetric`). -/
structure Metric where
  key_ : String
  values_ : List MemSample
  labels_ : Finset String
  total_bytes_ : Nat
  last_insert_time_ : Nat
deriving DecidableEq

namespace Metric

/-- The constructor `Metric::Metric(key)`: `total_bytes_(0)`, `last_insert_time_(0)`, empty
containers. (Named `new` because the structure already owns the name `Metric`.) -/
def new (key : String) : Metric :=
  { key_ := key, values_ := [], labels_ := ∅, total_bytes_ := 0, last_insert_time_ := 0 }

/-- The function `Metric::insertSampleImpl`. First block: every `pair.first` is emplaced into
`labels_`. Second block: `last_insert_time_` takes the wall-clock reading, a zero `timestamp`
is replaced by it, and the sample is appended to `values_`. -/
def insertSampleImpl (m : Metric) (value : Double) (labels : LabelList) (timestamp : Nat)
    (unixMicros : Nat) : Metric :=
  let labels_ := labels.foldl (fun acc pair => insert pair.1 acc) m.labels_
  let last_insert_time_ := unixMicros
  let timestamp := if timestamp = 0 then last_insert_time_ else timestamp
  let sample : MemSample := { time := timestamp, value := value, labels := labels }
  { m with
    labels_ := labels_
    last_insert_time_ := last_insert_time_
    values_ := m.values_ ++ [sample] }

/-- Modelled from the spec: `IMetric::insertSample(value, labels, timestamp = 0)` is declared in
`metric.h` but its body is not part of the sources at hand; the public insert operation always
routes through the backend's insert implementation. -/
def insertSample (m : Metric) (value : Double) (labels : LabelList) (timestamp : Nat)
    (unixMicros : Nat) : Metric :=
  m.insertSampleImpl value labels timestamp unixMicros

/-- The range-for loop of `Metric::scanSamples` over the remaining elements of `values_`:
`continue` when `sample.time < time_begin`, `break` when `sample.time >= time_end`, otherwise
build `cb_sample`, call the visitor and `break` when it returns false. -/
def scanLoop {σ : Type} (time_begin time_end : DateTime) (callback : Sample → σ → Bool × σ) :
    List MemSample → σ → List (Sample × Bool) × σ
  | [], st => ([], st)
  | sample :: rest, st =>
    if sample.time < time_begin then
      scanLoop time_begin time_end callback rest st
    else if sample.time ≥ time_end then
      ([], st)
    else
      let cb_sample : Sample :=
        { time := sample.time, value := sample.value, labels := sample.labels }
      let r := callback cb_sample st
      if !r.1 then
        ([(cb_sample, r.1)], r.2)
      else
        let out := scanLoop time_begin time_end callback rest r.2
        ((cb_sample, r.1) :: out.1, out.2)

/-- The function `Metric::scanSamples`: the loop over all of `values_`. The metric itself is
not modified. -/
def scanSamples {σ : Type} (m : Metric) (time_begin time_end : DateTime)
    (callback : Sample → σ → Bool × σ) (st : σ) : List (Sample × Bool) × σ :=
  scanLoop time_begin time_end callback m.values_ st

/-- The function `Metric::totalBytes`. -/
def totalBytes (m : Metric) : Nat := m.total_bytes_

/-- The function `Metric::lastInsertTime`: `DateTime(last_insert_time_)`. -/
def lastInsertTime (m : Metric) : DateTime := m.last_insert_time_

/-- The function `Metric::labels`: a copy of `labels_`. -/
def labels (m : Metric) : Finset String := m.labels_

/-- The function `Metric::hasLabel`: `labels_.find(label) != labels_.end()`. -/
def hasLabel (m : Metric) (label : String) : Bool := decide (label ∈ m.labels_)

end Metric

/-! ### Vocabulary used by the statements -/

/-- The samples a scan passed to its visitor, in invocation order. -/
def visited {σ : Type} (out : List (Sample × Bool) × σ) : List Sample := out.1.map Prod.fst

/-- A visitor that always asks to continue (and keeps no state). -/
def alwaysContinue : Sample → Unit → Bool × Unit := fun _ u => (true, u)

/-- The copy `Sample(sample.time, sample.value, sample.labels)` made for the visitor. -/
def toSample (s : MemSample) : Sample := { time := s.time, value := s.value, labels := s.labels }

/-- One call `insertSample(value, labels, timestamp)` together with the wall-clock reading
that the call obtains. -/
structure InsertCall where
  value : Double
  labels : LabelList
  timestamp : Nat
  unixMicros : Nat
deriving DecidableEq, Repr

/-- Sequential execution of a list of insert calls on one metric. -/
def runInserts (m : Metric) (calls : List InsertCall) : Metric :=
  calls.foldl (fun acc c => acc.insertSample c.value c.labels c.timestamp c.unixMicros) m

/-- Running a visitor over a list of samples the way the scan loop does: call it on each
sample in turn and stop right after the first call that returns false. -/
def feed {σ : Type} (callback : Sample → σ → Bool × σ) :
    List Sample → σ → List (Sample × Bool) × σ
  | [], st => ([], st)
  | x :: xs, st =>
    let r := callback x st
    if !r.1 then
      ([(x, r.1)], r.2)
    else
      let out := feed callback xs r.2
      ((x, r.1) :: out.1, out.2)

/-- The copies of the stored samples with `time >= time_begin` among those stored before the
first sample with `time >= time_end`. -/
def candidates (time_begin time_end : DateTime) (values : List MemSample) : List Sample :=
  ((values.takeWhile (fun s => decide (s.time < time_end))).filter
    (fun s => decide (time_begin ≤ s.time))).map toSample

/-- The scan as the specification words it: every stored sample whose timestamp lies in
`[time_begin, time_end)`, in stored order. -/
def scanSpec (time_begin time_end : DateTime) (values : List MemSample) : List Sample :=
  (values.filter (fun s => decide (time_begin ≤ s.time) && decide (s.time < time_end))).map
    toSample

/-- The set union of the label keys (first components of the label pairs) of all the samples
inserted by a list of calls. -/
def insertedKeys (calls : List InsertCall) : Finset String :=
  (calls.map (fun c => (c.labels.map Prod.fst).toFinset)).foldr (fun a b => a ∪ b) ∅

/-- The sample that one insert call stores: its timestamp when that is non-zero, the wall-clock
reading otherwise. -/
def storedSample (c : InsertCall) : MemSample :=
  { time := if c.timestamp = 0 then c.unixMicros else c.timestamp,
    value := c.value, labels := c.labels }

/-- One call on a metric: an insert (with the wall-clock reading it obtains) or a scan (with its
visitor and the visitor's initial state). -/
inductive Call (σ : Type) where
  | insertSample (value : Double) (labels : LabelList) (timestamp : Nat) (unixMicros : Nat)
  | scanSamples (time_begin time_end : DateTime) (callback : Sample → σ → Bool × σ) (st : σ)

/-- The metric after one call. A scan runs its loop and leaves the metric as it is. -/
def Call.apply {σ : Type} (m : Metric) : Call σ → Metric
  | Call.insertSample value labels timestamp unixMicros =>
    m.insertSample value labels timestamp unixMicros
  | Call.scanSamples time_begin time_end callback st =>
    let _out := m.scanSamples time_begin time_end callback st
    m

/-- Sequential execution of a list of insert and scan calls on one metric. -/
def runCalls {σ : Type} (m : Metric) (calls : List (Call σ)) : Metric :=
  calls.foldl Call.apply m

/-! ### Concrete inputs used by the examples -/

/-- The bit pattern of the double `0.5`. -/
def value_0_5 : Double := 0x3FE0000000000000

/-- The bit pattern of the double `0.9`. -/
def value_0_9 : Double := 0x3FECCCCCCCCCCCCD

/-- The scenario of the specification: `(0.5, [("host","a")], 1000)` and then
`(0.9, [("host","b")], 2000)`, with two successive wall-clock readings. -/
def scenarioCalls : List InsertCall :=
  [ { value := value_0_5, labels := [("host", "a")], timestamp := 1000,
      unixMicros := 1400000000000000 },
    { value := value_0_9, labels := [("host", "b")], timestamp := 2000,
      unixMicros := 1400000000000001 } ]

/-- The same two inserts with the later timestamp supplied first. -/
def outOfOrderCalls : List InsertCall :=
  [ { value := value_0_9, labels := [("host", "b")], timestamp := 2000,
      unixMicros := 1400000000000000 },
    { value := value_0_5, labels := [("host", "a")], timestamp := 1000,
      unixMicros := 1400000000000001 } ]

/-- A visitor that counts its invocations and returns false on the second one. -/
def stopAtSecond : Sample → Nat → Bool × Nat := fun _ n => (decide (n + 1 < 2), n + 1)

end inmemory_backend
end metricdb
end fnordmetric

/-! ## The HTTP ingestion handler (`httpapi.cc`) -/

namespace fnordmetric
namespace metricdb

open inmemory_backend

/-- The type `util::URI::ParamList`: the request parameters as (name, value) pairs. -/
abbrev ParamList := List (String × String)

/-- Modelled from the spec: `util::URI::getParam(params, key, &value)` (not part of the sources
at hand) reports whether the required field `key` is present and, if so, yields its value; the
first parameter with that name is taken. -/
def getParam (params : ParamList) (key : String) : Option String :=
  (params.find? (fun param => decide (param.1 = key))).map Prod.snd

/-- Modelled from the spec: the metric repository (`metricrepository.h` is not part of the
sources at hand), a mapping from metric key to a uniquely-owned metric instance, here the list
of registered metrics in creation order. -/
abbrev MetricRepository := List Metric

/-- Modelled from the spec: `find(key)` returns the existing metric or an absent result and
never creates. -/
def findMetric (repo : MetricRepository) (key : String) : Option Metric :=
  repo.find? (fun m => decide (m.key_ = key))

/-- Modelled from the spec: `findOrCreate(key)` returns the existing metric for `key` if
present; otherwise it constructs a new backend instance and registers it under `key`. The
result is the repository afterwards; the returned pointer designates the metric registered
under `key` in it. -/
def findOrCreateMetric (repo : MetricRepository) (key : String) : MetricRepository :=
  match findMetric repo key with
  | some _ => repo
  | none => repo ++ [Metric.new key]

/-- A call through the pointer returned by `findOrCreateMetric(key)`: the metric registered
under `key` is replaced by its state after the call. -/
def updateMetric (repo : MetricRepository) (key : String) (f : Metric → Metric) :
    MetricRepository :=
  repo.map (fun m => if m.key_ = key then f m else m)

/-- The core operations that the handler can invoke, with their arguments. -/
inductive CoreCall where
  | findOrCreateMetric (key : String)
  | insertSample (key : String) (value : Double) (labels : LabelList) (timestamp : Nat)
deriving DecidableEq

/-- The status codes the handler sets (`http::kStatusCreated`, `http::kStatusBadRequest`). -/
inductive HTTPStatus where
  | kStatusCreated
  | kStatusBadRequest
deriving DecidableEq, Repr

/-- What one run of `HTTPAPI::insertSample` leaves behind: the repository, the core operations
invoked in order, the status set on the response (if any), the body added to it, and whether
an exception left the handler. -/
structure HandlerResult where
  repo : MetricRepository
  calls : List CoreCall
  status : Option HTTPStatus
  body : String
  thrown : Bool
deriving DecidableEq

/-- The constant `kLabelParamPrefix`. -/
def kLabelParamPrefix : String := "label["

/-- The test and extraction in the label loop of `HTTPAPI::insertSample`:
`key.compare(0, sizeof(kLabelParamPrefix) - 1, kLabelParamPrefix) == 0 && key.back() == ']'`
and then `key.substr(sizeof(kLabelParamPrefix) - 1, key.size() - sizeof(kLabelParamPrefix))`,
where `sizeof(kLabelParamPrefix)` is 7. -/
def labelKey (key : String) : Option String :=
  if ( kLabelParamPrefix).toList.isPrefixOf key.toList ∧ key.toList.getLast? = some ']' then
    some (String.mk ((key.toList.drop (7 - 1)).take (key.toList.length - 7)))
  else
    none

namespace HTTPAPI

/-- The function `HTTPAPI::insertSample`, from the parameter list `params` it has selected (the
parsed post body when that is non-empty, the query parameters otherwise). The parsers
`std::stod` and `boost::lexical_cast<uint64_t>` are arguments; `none` stands for the exception
they throw on a string they cannot convert. `unixMicros` is the wall-clock reading of the
insert. The debug log lines are left out. -/
def insertSample (stod : String → Option Double) (lexical_cast : String → Option Nat)
    (unixMicros : Nat) (repo : MetricRepository) (params : ParamList) : HandlerResult :=
  match getParam params "metric" with
  | none =>
    { repo := repo, calls := [], status := some HTTPStatus.kStatusBadRequest,
      body := "error: invalid metric key: ", thrown := false }
  | some metric_key =>
    match getParam params "value" with
    | none =>
      { repo := repo, calls := [], status := some HTTPStatus.kStatusBadRequest,
        body := "error: missing ?value=... parameter", thrown := false }
    | some value_str =>
      let labels : LabelList :=
        params.filterMap (fun param => (labelKey param.1).map (fun label_key => (label_key, param.2)))
      match stod value_str with
      | none =>
        { repo := repo, calls := [], status := some HTTPStatus.kStatusBadRequest,
          body := "error: invalid value: " ++ value_str, thrown := false }
      | some sample_value =>
        let repo1 := findOrCreateMetric repo metric_key
        let calls1 := [CoreCall.findOrCreateMetric metric_key]
        let finish (timestamp : Nat) : HandlerResult :=
          { repo := updateMetric repo1 metric_key
              (fun m => m.insertSample sample_value labels timestamp unixMicros),
            calls := calls1 ++ [CoreCall.insertSample metric_key sample_value labels timestamp],
            status := some HTTPStatus.kStatusCreated, body := "", thrown := false }
        match getParam params "timestamp" with
        | none => finish 0
        | some timestamp_str =>
          match lexical_cast timestamp_str with
          | none =>
            { repo := repo1, calls := calls1, status := none, body := "", thrown := true }
          | some timestamp => finish timestamp

end HTTPAPI

/-- A stand-in for `std::stod` that converts the strings used in the examples: `"1.5"` gives
the bit pattern of the double `1.5`, anything else is rejected. -/
def stodExample (s : String) : Option Double :=
  if s = "1.5" then some 0x3FF8000000000000 else none

/-- A stand-in for `boost::lexical_cast<uint64_t>` on the strings used in the examples: a
non-empty string of decimal digits whose value fits 64 bits is converted, anything else is
rejected. -/
def lexicalCastExample (s : String) : Option Nat :=
  if s.toList ≠ [] ∧ s.toList.all Char.isDigit = true then
    let n := s.toList.foldl (fun acc c => 10 * acc + (c.toNat - 48)) 0
    if n < 2 ^ 64 then some n else none
  else
    none

/-- A request with a valid metric key and value, one label, and a timestamp that is not a
number. -/
def badTimestampParams : ParamList :=
  [("metric", "cpu"), ("value", "1.5"), ("label[host]", "a"), ("timestamp", "abc")]

end metricdb
end fnordmetric

/-! ## Properties -/

namespace fnordmetric
namespace metricdb
namespace inmemory_backend

section ScanLemmas

variable {σ : Type}

theorem scanLoop_of_end_le_begin (tb te : DateTime) (cb : Sample → σ → Bool × σ)
    (h : te ≤ tb) (values : List MemSample) (st : σ) :
    Metric.scanLoop tb te cb values st = ([], st) := by
  induction values with
  | nil => rfl
  | cons x rest ih =>
    unfold Metric.scanLoop
    by_cases h1 : x.time < tb
    · simp only [h1, if_true]
      exact ih
    · have h2 : x.time ≥ te := by unfold DateTime at *; omega
      simp only [h1, h2, if_true, if_false]

theorem candidates_nil (tb te : DateTime) : candidates tb te [] = [] := rfl

theorem candidates_cons (tb te : DateTime) (x : MemSample) (rest : List MemSample) :
    candidates tb te (x :: rest) =
      if x.time < te then
        (if tb ≤ x.time then toSample x :: candidates tb te rest else candidates tb te rest)
      else [] := by
  unfold candidates
  by_cases h1 : x.time < te
  · by_cases h2 : tb ≤ x.time
    · simp [h1, h2, List.takeWhile_cons, List.filter_cons]
    · simp [h1, h2, List.takeWhile_cons, List.filter_cons]
  · simp [h1, List.takeWhile_cons]

theorem scanLoop_eq_feed (tb te : DateTime) (cb : Sample → σ → Bool × σ)
    (values : List MemSample) (st : σ) :
    Metric.scanLoop tb te cb values st = feed cb (candidates tb te values) st := by
  induction values generalizing st with
  | nil => rfl
  | cons x rest ih =>
    rw [candidates_cons]
    unfold Metric.scanLoop
    by_cases h1 : x.time < tb
    · by_cases h2 : x.time < te
      · have h3 : ¬ tb ≤ x.time := by unfold DateTime at *; omega
        simp only [h1, h2, h3, if_true, if_false]
        exact ih st
      · simp only [h1, h2, if_true, if_false]
        rw [scanLoop_of_end_le_begin tb te cb (by unfold DateTime at *; omega) rest st]
        rfl
    · by_cases h2 : x.time < te
      · have h3 : tb ≤ x.time := by unfold DateTime at *; omega
        have h4 : ¬ x.time ≥ te := by unfold DateTime at *; omega
        simp only [h1, h2, h3, h4, if_true, if_false]
        unfold feed
        simp only [toSample]
        rw [ih]
      · have h4 : x.time ≥ te := by unfold DateTime at *; omega
        simp only [h1, h2, h4, if_true, if_false]
        rfl

theorem mem_candidates (tb te : DateTime) (values : List MemSample) (s : Sample)
    (h : s ∈ candidates tb te values) : tb ≤ s.time ∧ s.time < te := by
  unfold candidates at h
  obtain ⟨x, hx, rfl⟩ := List.mem_map.1 h
  obtain ⟨hx1, hx2⟩ := List.mem_filter.1 hx
  have hx3 := List.mem_takeWhile_imp hx1
  exact ⟨of_decide_eq_true hx2, of_decide_eq_true hx3⟩

theorem candidates_eq_scanSpec (tb te : DateTime) (values : List MemSample)
    (hs : values.Pairwise (fun a b => a.time ≤ b.time)) :
    candidates tb te values = scanSpec tb te values := by
  induction values with
  | nil => rfl
  | cons x rest ih =>
    obtain ⟨hx, hrest⟩ := List.pairwise_cons.1 hs
    rw [candidates_cons]
    unfold scanSpec
    by_cases h1 : x.time < te
    · by_cases h2 : tb ≤ x.time
      · simp only [h1, h2, if_true, List.filter_cons, decide_True, Bool.and_self, List.map_cons]
        rw [ih hrest]
        rfl
      · simp only [h1, h2, if_true, if_false, List.filter_cons, decide_True, decide_False,
          Bool.false_and]
        rw [ih hrest]
        rfl
    · have h3 : rest.filter (fun s => decide (tb ≤ s.time) && decide (s.time < te)) = [] := by
        rw [List.filter_eq_nil_iff]
        intro y hy
        have := hx y hy
        have h4 : ¬ y.time < te := by unfold DateTime at *; omega
        simp [h4]
      simp only [h1, if_false, List.filter_cons, decide_False, Bool.and_false, h3, List.map_nil]
      rfl

theorem feed_all_true (cb : Sample → σ → Bool × σ) (hcb : ∀ x st, (cb x st).1 = true)
    (xs : List Sample) (st : σ) :
    (feed cb xs st).1 = xs.map (fun x => (x, true)) := by
  induction xs generalizing st with
  | nil => rfl
  | cons x xs ih =>
    unfold feed
    simp only [hcb, Bool.not_true, Bool.false_eq_true, if_false, List.map_cons]
    rw [ih]

theorem feed_fst (cb : Sample → σ → Bool × σ) (xs : List Sample) (st : σ) :
    (feed cb xs st).1.map Prod.fst = xs.take (feed cb xs st).1.length := by
  induction xs generalizing st with
  | nil => rfl
  | cons x xs ih =>
    unfold feed
    by_cases h : (cb x st).1 = true
    · simp only [h, Bool.not_true, Bool.false_eq_true, if_false, List.map_cons, List.length_cons,
        List.take_succ_cons]
      rw [ih]
    · simp [h]

theorem feed_false_is_last (cb : Sample → σ → Bool × σ) (xs : List Sample) (st : σ) (i : Nat)
    (h : ((feed cb xs st).1[i]?).map Prod.snd = some false) :
    (feed cb xs st).1.length = i + 1 := by
  induction xs generalizing st i with
  | nil => simp [feed] at h
  | cons x xs ih =>
    unfold feed at h ⊢
    by_cases hc : (cb x st).1 = true
    · simp only [hc, Bool.not_true, Bool.false_eq_true, if_false] at h ⊢
      cases i with
      | zero => simp at h
      | succ j =>
        simp only [List.getElem?_cons_succ] at h
        simp only [List.length_cons]
        rw [ih _ j h]
    · simp only [hc, Bool.not_false, if_true] at h ⊢
      cases i with
      | zero => rfl
      | succ j => simp at h

end ScanLemmas

/-! ### Scanning -/

section Scan

variable {σ : Type}

/-- C1 (range exclusivity). Whatever the stored samples, the window and the visitor, every
sample passed to the visitor has `time_begin <= time < time_end`; when
`time_begin == time_end` the visitor is not invoked at all. -/
theorem scanSamples_range_exclusive (m : Metric) (time_begin time_end : DateTime)
    (callback : Sample → σ → Bool × σ) (st : σ) :
    (∀ s ∈ visited (m.scanSamples time_begin time_end callback st),
        time_begin ≤ s.time ∧ s.time < time_end) ∧
      (time_begin = time_end → (m.scanSamples time_begin time_end callback st).1 = []) := by
  constructor
  · intro s hs
    unfold visited Metric.scanSamples at hs
    rw [scanLoop_eq_feed, feed_fst] at hs
    exact mem_candidates _ _ _ _ (List.mem_of_mem_take hs)
  · intro h
    unfold Metric.scanSamples
    rw [scanLoop_of_end_le_begin _ _ _ (le_of_eq h.symm)]

/-- C1, instantiated on the scenario metric with the stopping visitor: the only sample
visited in the window `[1000, 2000)` lies in it, and the empty window `[1000, 1000)` gives no
invocation. -/
theorem scanSamples_range_exclusive_witness :
    (∀ s ∈ visited ((runInserts (Metric.new "cpu") scenarioCalls).scanSamples 1000 2000
          stopAtSecond 0), 1000 ≤ s.time ∧ s.time < 2000) ∧
      ((runInserts (Metric.new "cpu") scenarioCalls).scanSamples 1000 1000 stopAtSecond 0).1
        = [] :=
  ⟨(scanSamples_range_exclusive (runInserts (Metric.new "cpu") scenarioCalls) 1000 2000
      stopAtSecond 0).1,
   (scanSamples_range_exclusive (runInserts (Metric.new "cpu") scenarioCalls) 1000 1000
      stopAtSecond 0).2 rfl⟩

/-- C2 fails as stated. After inserting timestamp 2000 and then timestamp 1000, a scan of
`[0, 1500)` with an always-continue visitor stops at the first stored sample and visits
nothing, although the stored sample with time 1000 lies in the window. -/
theorem scanSamples_complete_counterexample :
    visited ((runInserts (Metric.new "cpu") outOfOrderCalls).scanSamples 0 1500
        alwaysContinue ()) = [] ∧
      scanSpec 0 1500 (runInserts (Metric.new "cpu") outOfOrderCalls).values_ =
        [{ time := 1000, value := value_0_5, labels := [("host", "a")] }] ∧
      visited ((runInserts (Metric.new "cpu") outOfOrderCalls).scanSamples 0 1500
        alwaysContinue ()) ≠
        scanSpec 0 1500 (runInserts (Metric.new "cpu") outOfOrderCalls).values_ := by
  decide

/-- C2 (amended). With a visitor that always returns true, the scan invokes the visitor exactly
once, in stored order, for each stored sample with `time >= time_begin` that is stored before
the first sample with `time >= time_end`; every invocation returns true. -/
theorem scanSamples_visits_until_end (m : Metric) (time_begin time_end : DateTime)
    (callback : Sample → σ → Bool × σ) (st : σ)
    (hcb : ∀ x s, (callback x s).1 = true) :
    visited (m.scanSamples time_begin time_end callback st) =
        ((m.values_.takeWhile (fun s => decide (s.time < time_end))).filter
          (fun s => decide (time_begin ≤ s.time))).map toSample ∧
      ∀ p ∈ (m.scanSamples time_begin time_end callback st).1, p.2 = true := by
  unfold visited Metric.scanSamples
  rw [scanLoop_eq_feed, feed_all_true _ hcb]
  constructor
  · simp [Function.comp_def, candidates]
  · intro p hp
    obtain ⟨x, _, rfl⟩ := List.mem_map.1 hp
    rfl

/-- C2 (amended), instantiated on the scenario metric and the window `[0, 1500)`. -/
theorem scanSamples_visits_until_end_witness :
    visited ((runInserts (Metric.new "cpu") scenarioCalls).scanSamples 0 1500
        alwaysContinue ()) =
      [{ time := 1000, value := value_0_5, labels := [("host", "a")] }] :=
  (scanSamples_visits_until_end (runInserts (Metric.new "cpu") scenarioCalls) 0 1500
    alwaysContinue () (fun _ _ => rfl)).1.trans (by decide)

/-- C9 (early break equals full filter on chronological storage). When the stored timestamps are
non-decreasing in stored order, a scan with a visitor that always returns true visits exactly
the stored samples with `time_begin <= time < time_end`, in stored order. -/
theorem scanSamples_eq_filter_of_sorted (m : Metric) (time_begin time_end : DateTime)
    (callback : Sample → σ → Bool × σ) (st : σ)
    (hcb : ∀ x s, (callback x s).1 = true)
    (hsorted : m.values_.Pairwise (fun a b => a.time ≤ b.time)) :
    visited (m.scanSamples time_begin time_end callback st) =
      scanSpec time_begin time_end m.values_ := by
  unfold visited Metric.scanSamples
  rw [scanLoop_eq_feed, feed_all_true _ hcb, candidates_eq_scanSpec _ _ _ hsorted]
  simp [Function.comp_def]

/-- C9, instantiated on the scenario metric (timestamps 1000, 2000) and the window
`[1500, 3000)`. -/
theorem scanSamples_eq_filter_of_sorted_witness :
    (runInserts (Metric.new "cpu") scenarioCalls).values_.Pairwise
        (fun a b => a.time ≤ b.time) ∧
      visited ((runInserts (Metric.new "cpu") scenarioCalls).scanSamples 1500 3000
        alwaysContinue ()) =
        [{ time := 2000, value := value_0_9, labels := [("host", "b")] }] :=
  ⟨by decide,
   (scanSamples_eq_filter_of_sorted (runInserts (Metric.new "cpu") scenarioCalls) 1500 3000
      alwaysContinue () (fun _ _ => rfl) (by decide)).trans (by decide)⟩

/-- C5 (early termination). If, during a scan, the visitor returns true on its first `k - 1`
invocations and false on its `k`-th, then the scan makes exactly `k` invocations, and they
receive the first `k` samples that an always-continue scan of the same window visits. -/
theorem scanSamples_early_termination (m : Metric) (time_begin time_end : DateTime)
    (callback : Sample → σ → Bool × σ) (st : σ) (k : Nat) (hk : 1 ≤ k)
    (htrue : ∀ i, i < k - 1 →
      ((m.scanSamples time_begin time_end callback st).1[i]?).map Prod.snd = some true)
    (hfalse :
      ((m.scanSamples time_begin time_end callback st).1[k - 1]?).map Prod.snd = some false) :
    (m.scanSamples time_begin time_end callback st).1.length = k ∧
      visited (m.scanSamples time_begin time_end callback st) =
        (visited (m.scanSamples time_begin time_end alwaysContinue ())).take k := by
  have _ := htrue
  have hlen : (m.scanSamples time_begin time_end callback st).1.length = k := by
    unfold Metric.scanSamples at hfalse ⊢
    rw [scanLoop_eq_feed] at hfalse ⊢
    rw [feed_false_is_last _ _ _ _ hfalse]
    omega
  refine ⟨hlen, ?_⟩
  have hfull : visited (m.scanSamples time_begin time_end alwaysContinue ()) =
      candidates time_begin time_end m.values_ := by
    unfold visited Metric.scanSamples
    rw [scanLoop_eq_feed, feed_all_true _ (fun _ _ => rfl)]
    simp [Function.comp_def]
  rw [hfull, ← hlen]
  unfold visited Metric.scanSamples
  rw [scanLoop_eq_feed, feed_fst]

/-- C5, instantiated with `k = 2` on three stored samples and a visitor that returns false on
its second invocation. -/
theorem scanSamples_early_termination_witness :
    ((runInserts (Metric.new "cpu") (scenarioCalls ++ outOfOrderCalls)).scanSamples 0 5000
        stopAtSecond 0).1.length = 2 ∧
      visited ((runInserts (Metric.new "cpu") (scenarioCalls ++ outOfOrderCalls)).scanSamples
        0 5000 stopAtSecond 0) =
        (visited ((runInserts (Metric.new "cpu") (scenarioCalls ++ outOfOrderCalls)).scanSamples
          0 5000 alwaysContinue ())).take 2 :=
  scanSamples_early_termination (runInserts (Metric.new "cpu") (scenarioCalls ++ outOfOrderCalls))
    0 5000 stopAtSecond 0 2 (by decide) (by decide) (by decide)

end Scan

/-! ### Inserting -/

section InsertLemmas

theorem insertSample_values (m : Metric) (c : InsertCall) :
    (m.insertSample c.value c.labels c.timestamp c.unixMicros).values_ =
      m.values_ ++ [storedSample c] := rfl

theorem insertSample_last (m : Metric) (v : Double) (L : LabelList) (t now : Nat) :
    (m.insertSample v L t now).last_insert_time_ = now := rfl

theorem insertSample_total (m : Metric) (v : Double) (L : LabelList) (t now : Nat) :
    (m.insertSample v L t now).total_bytes_ = m.total_bytes_ := rfl

theorem foldl_emplace (L : LabelList) (S : Finset String) :
    L.foldl (fun acc pair => insert pair.1 acc) S = S ∪ (L.map Prod.fst).toFinset := by
  induction L generalizing S with
  | nil => simp
  | cons p L ih =>
    rw [List.foldl_cons, ih]
    ext k
    simp only [Finset.mem_union, Finset.mem_insert, List.map_cons, List.toFinset_cons]
    tauto

theorem insertSample_labels (m : Metric) (v : Double) (L : LabelList) (t now : Nat) :
    (m.insertSample v L t now).labels_ = m.labels_ ∪ (L.map Prod.fst).toFinset :=
  foldl_emplace L m.labels_

theorem runInserts_nil (m : Metric) : runInserts m [] = m := rfl

theorem runInserts_cons (m : Metric) (c : InsertCall) (cs : List InsertCall) :
    runInserts m (c :: cs) =
      runInserts (m.insertSample c.value c.labels c.timestamp c.unixMicros) cs := rfl

theorem runInserts_append (m : Metric) (a b : List InsertCall) :
    runInserts m (a ++ b) = runInserts (runInserts m a) b := by
  unfold runInserts
  rw [List.foldl_append]

theorem runInserts_values (m : Metric) (calls : List InsertCall) :
    (runInserts m calls).values_ = m.values_ ++ calls.map storedSample := by
  induction calls generalizing m with
  | nil => simp [runInserts_nil]
  | cons c cs ih =>
    rw [runInserts_cons, ih, insertSample_values]
    simp

theorem runInserts_labels (m : Metric) (calls : List InsertCall) :
    (runInserts m calls).labels_ = m.labels_ ∪ insertedKeys calls := by
  induction calls generalizing m with
  | nil => simp [runInserts_nil, insertedKeys]
  | cons c cs ih =>
    rw [runInserts_cons, ih, insertSample_labels]
    unfold insertedKeys
    simp only [List.map_cons, List.foldr_cons]
    rw [Finset.union_assoc]

theorem mem_insertedKeys (calls : List InsertCall) (k : String) :
    k ∈ insertedKeys calls ↔ ∃ c ∈ calls, ∃ p ∈ c.labels, p.1 = k := by
  induction calls with
  | nil => simp [insertedKeys]
  | cons c cs ih =>
    unfold insertedKeys at ih ⊢
    simp only [List.map_cons, List.foldr_cons, Finset.mem_union, ih, List.mem_toFinset,
      List.mem_map, List.mem_cons, exists_eq_or_imp]

theorem lastInsertTime_le_runInserts (m : Metric) (calls : List InsertCall)
    (h : List.Chain (fun a b => a ≤ b) m.last_insert_time_
      (calls.map InsertCall.unixMicros)) :
    m.last_insert_time_ ≤ (runInserts m calls).last_insert_time_ := by
  induction calls generalizing m with
  | nil => exact le_refl _
  | cons c cs ih =>
    rw [List.map_cons, List.chain_cons] at h
    rw [runInserts_cons]
    exact le_trans h.1 (ih (m.insertSample c.value c.labels c.timestamp c.unixMicros) h.2)

theorem candidates_append_of_lt (tb te : DateTime) (xs ys : List MemSample)
    (h : ∀ s ∈ xs, s.time < te) :
    candidates tb te (xs ++ ys) =
      (xs.filter (fun s => decide (tb ≤ s.time))).map toSample ++ candidates tb te ys := by
  induction xs with
  | nil => rfl
  | cons x xs ih =>
    have hx : x.time < te := h x (List.mem_cons_self _ _)
    have hxs : ∀ s ∈ xs, s.time < te := fun s hs => h s (List.mem_cons_of_mem _ hs)
    rw [List.cons_append, candidates_cons, ih hxs]
    by_cases h2 : tb ≤ x.time
    · simp [hx, h2, List.filter_cons]
    · simp [hx, h2, List.filter_cons]

theorem candidates_of_all_in_range (tb te : DateTime) (xs : List MemSample)
    (h : ∀ s ∈ xs, tb ≤ s.time ∧ s.time < te) :
    candidates tb te xs = xs.map toSample := by
  induction xs with
  | nil => rfl
  | cons x xs ih =>
    have hx := h x (List.mem_cons_self _ _)
    have hxs : ∀ s ∈ xs, tb ≤ s.time ∧ s.time < te :=
      fun s hs => h s (List.mem_cons_of_mem _ hs)
    rw [candidates_cons, ih hxs]
    simp [hx.1, hx.2]

theorem visited_of_all_true {σ : Type} (m : Metric) (tb te : DateTime)
    (cb : Sample → σ → Bool × σ) (st : σ) (hcb : ∀ x s, (cb x s).1 = true) :
    visited (m.scanSamples tb te cb st) = candidates tb te m.values_ := by
  unfold visited Metric.scanSamples
  rw [scanLoop_eq_feed, feed_all_true _ hcb]
  simp [Function.comp_def]

theorem runCalls_total {σ : Type} (m : Metric) (calls : List (Call σ)) :
    (runCalls m calls).total_bytes_ = m.total_bytes_ := by
  induction calls generalizing m with
  | nil => rfl
  | cons c cs ih =>
    have hstep : runCalls m (c :: cs) = runCalls (Call.apply m c) cs := rfl
    rw [hstep, ih]
    cases c with
    | insertSample v L t now => rfl
    | scanSamples tb te cb st => rfl

end InsertLemmas

section Insert

variable {σ : Type}

/-- C3 fails as stated. On the metric reached by inserting timestamp 2000, inserting
`(0.5, [("host","a")], 1000)` and scanning the window `[0, 1500)`, which covers 1000, with an
always-continue visitor does not visit the sample just inserted: the scan stops at the stored
sample with time 2000. -/
theorem insert_visibility_counterexample :
    (1000 : Nat) ≠ 0 ∧ (0 : Nat) ≤ 1000 ∧ (1000 : Nat) < 1500 ∧
      ({ time := 1000, value := value_0_5, labels := [("host", "a")] } : Sample) ∉
        visited (((runInserts (Metric.new "cpu") (outOfOrderCalls.take 1)).insertSample
          value_0_5 [("host", "a")] 1000 1400000000000001).scanSamples 0 1500
            alwaysContinue ()) := by
  decide

/-- C3 (amended). For every metric state (so for every state reached by inserts), after
`insertSample(v, L, t)` with `t` non-zero, a scan of a window with `time_begin <= t < time_end`
by a visitor that always returns true visits a sample with time `t`, value `v` and labels `L`,
provided no previously stored sample has `time >= time_end`; when the metric was empty before
the insert, that sample is the only one visited. -/
theorem insert_then_scan_visible (m : Metric) (v : Double) (L : LabelList) (t now : Nat)
    (time_begin time_end : DateTime) (callback : Sample → σ → Bool × σ) (st : σ)
    (hcb : ∀ x s, (callback x s).1 = true)
    (ht : t ≠ 0) (hb : time_begin ≤ t) (he : t < time_end)
    (hprior : ∀ s ∈ m.values_, s.time < time_end) :
    ({ time := t, value := v, labels := L } : Sample) ∈
        visited ((m.insertSample v L t now).scanSamples time_begin time_end callback st) ∧
      (m.values_ = [] →
        visited ((m.insertSample v L t now).scanSamples time_begin time_end callback st) =
          [{ time := t, value := v, labels := L }]) := by
  have hv : (m.insertSample v L t now).values_ =
      m.values_ ++ [{ time := t, value := v, labels := L }] := by
    show m.values_ ++ [{ time := if t = 0 then now else t, value := v, labels := L }] = _
    rw [if_neg ht]
  have hlast : candidates time_begin time_end [{ time := t, value := v, labels := L }] =
      [{ time := t, value := v, labels := L }] := by
    rw [candidates_cons]
    simp [hb, he, candidates_nil, toSample]
  rw [visited_of_all_true _ _ _ _ _ hcb, hv, candidates_append_of_lt _ _ _ _ hprior, hlast]
  constructor
  · simp
  · intro hnil
    simp [hnil]

/-- C3 (amended), instantiated on the metric holding timestamp 2000, an insert at 1000 and the
window `[0, 3000)`. -/
theorem insert_then_scan_visible_witness :
    ({ time := 1000, value := value_0_5, labels := [("host", "a")] } : Sample) ∈
        visited (((runInserts (Metric.new "cpu") (outOfOrderCalls.take 1)).insertSample
          value_0_5 [("host", "a")] 1000 1400000000000001).scanSamples 0 3000
            alwaysContinue ()) ∧
      ((runInserts (Metric.new "cpu") (outOfOrderCalls.take 1)).values_ = [] →
        visited (((runInserts (Metric.new "cpu") (outOfOrderCalls.take 1)).insertSample
          value_0_5 [("host", "a")] 1000 1400000000000001).scanSamples 0 3000
            alwaysContinue ()) =
          [{ time := 1000, value := value_0_5, labels := [("host", "a")] }]) :=
  insert_then_scan_visible (runInserts (Metric.new "cpu") (outOfOrderCalls.take 1))
    value_0_5 [("host", "a")] 1000 1400000000000001 0 3000 alwaysContinue ()
    (fun _ _ => rfl) (by decide) (by decide) (by decide) (by decide)

/-- C4 (label accumulation). After any finite sequence of inserts on a freshly constructed
metric, `labels()` is the set union of the label keys of all inserted samples: a key is in it
exactly when some inserted sample carries it. The result is the same for any other sequence made
of the same calls in another order or with repeats, further inserts never remove a key, and
`hasLabel(k)` is true exactly for the keys of that union. -/
theorem labels_accumulate (key : String) (calls : List InsertCall) :
    (runInserts (Metric.new key) calls).labels = insertedKeys calls ∧
      (∀ k, k ∈ (runInserts (Metric.new key) calls).labels ↔
        ∃ c ∈ calls, ∃ p ∈ c.labels, p.1 = k) ∧
      (∀ calls2 : List InsertCall, (∀ c, c ∈ calls2 ↔ c ∈ calls) →
        (runInserts (Metric.new key) calls2).labels =
          (runInserts (Metric.new key) calls).labels) ∧
      (∀ more : List InsertCall, (runInserts (Metric.new key) calls).labels ⊆
        (runInserts (Metric.new key) (calls ++ more)).labels) ∧
      (∀ k, (runInserts (Metric.new key) calls).hasLabel k = true ↔ k ∈ insertedKeys calls) := by
  have hlab : ∀ cs : List InsertCall, (runInserts (Metric.new key) cs).labels = insertedKeys cs := by
    intro cs
    show (runInserts (Metric.new key) cs).labels_ = _
    rw [runInserts_labels]
    show ∅ ∪ insertedKeys cs = insertedKeys cs
    exact Finset.empty_union _
  refine ⟨hlab calls, ?_, ?_, ?_, ?_⟩
  · intro k
    rw [hlab, mem_insertedKeys]
  · intro calls2 hsame
    rw [hlab, hlab]
    ext k
    rw [mem_insertedKeys, mem_insertedKeys]
    constructor
    · rintro ⟨c, hc, hp⟩
      exact ⟨c, (hsame c).1 hc, hp⟩
    · rintro ⟨c, hc, hp⟩
      exact ⟨c, (hsame c).2 hc, hp⟩
  · intro more k hk
    rw [hlab] at hk ⊢
    rw [mem_insertedKeys] at hk ⊢
    obtain ⟨c, hc, hp⟩ := hk
    exact ⟨c, List.mem_append_left _ hc, hp⟩
  · intro k
    rw [← hlab calls]
    unfold Metric.hasLabel Metric.labels
    exact decide_eq_true_iff

/-- C4, instantiated: the two scenario inserts and the same inserts reversed and repeated
give the same label set. -/
theorem labels_accumulate_witness :
    (runInserts (Metric.new "cpu") (scenarioCalls.reverse ++ scenarioCalls)).labels =
      (runInserts (Metric.new "cpu") scenarioCalls).labels :=
  (labels_accumulate "cpu" scenarioCalls).2.2.1 (scenarioCalls.reverse ++ scenarioCalls)
    (fun c => by simp only [List.mem_append, List.mem_reverse, or_self])

/-- C6 (default timestamp). An insert with timestamp 0 appends a sample whose time is the
wall-clock reading taken by the call, and `lastInsertTime()` after the call is that same reading.
If the readings taken by a sequence of inserts are non-decreasing, starting from the reading the
metric holds, then `lastInsertTime()` after a prefix of the sequence is at most
`lastInsertTime()` after any extension of it. -/
theorem default_timestamp (m : Metric) (v : Double) (L : LabelList) (now : Nat) :
    (m.insertSample v L 0 now).values_ =
        m.values_ ++ [MemSample.mk (m.insertSample v L 0 now).lastInsertTime v L] ∧
      (m.insertSample v L 0 now).lastInsertTime = now ∧
      (∀ calls1 calls2 : List InsertCall,
        List.Chain (fun a b => a ≤ b) m.lastInsertTime
          ((calls1 ++ calls2).map InsertCall.unixMicros) →
        (runInserts m calls1).lastInsertTime ≤ (runInserts m (calls1 ++ calls2)).lastInsertTime) := by
  refine ⟨rfl, rfl, ?_⟩
  intro calls1 calls2 h
  unfold Metric.lastInsertTime at h ⊢
  rw [runInserts_append]
  apply lastInsertTime_le_runInserts
  clear v L now
  induction calls1 generalizing m with
  | nil => exact h
  | cons c cs ih =>
    rw [List.cons_append, List.map_cons, List.chain_cons] at h
    rw [runInserts_cons]
    exact ih (m.insertSample c.value c.labels c.timestamp c.unixMicros) h.2

/-- C6, instantiated: on a fresh metric the scenario readings are non-decreasing, and the
reading after the first insert is at most the reading after both. -/
theorem default_timestamp_witness :
    (runInserts (Metric.new "cpu") (scenarioCalls.take 1)).lastInsertTime ≤
      (runInserts (Metric.new "cpu") (scenarioCalls.take 1 ++ scenarioCalls.drop 1)).lastInsertTime :=
  (default_timestamp (Metric.new "cpu") value_0_5 [] 1400000000000000).2.2
    (scenarioCalls.take 1) (scenarioCalls.drop 1)
    (List.Chain.cons (by decide) (List.Chain.cons (by decide) List.Chain.nil))

/-- C7 (append-only insertion order). For a sequence of inserts with non-zero timestamps on a
fresh metric, each insert keeps the samples stored so far and adds exactly one sample, built
from its arguments, at the end; a scan of a window containing all the inserted timestamps by a
visitor that always returns true yields the inserted (time, value, labels) triples in call
order. -/
theorem insert_appends_in_call_order (key : String) (calls : List InsertCall)
    (time_begin time_end : DateTime) (callback : Sample → σ → Bool × σ) (st : σ)
    (hcb : ∀ x s, (callback x s).1 = true)
    (hcalls : ∀ c ∈ calls, c.timestamp ≠ 0 ∧ time_begin ≤ c.timestamp ∧ c.timestamp < time_end) :
    (∀ (before : List InsertCall) (c : InsertCall) (after : List InsertCall),
        calls = before ++ c :: after →
        (runInserts (Metric.new key) (before ++ [c])).values_ =
          (runInserts (Metric.new key) before).values_ ++
            [{ time := c.timestamp, value := c.value, labels := c.labels }]) ∧
      visited ((runInserts (Metric.new key) calls).scanSamples time_begin time_end callback st) =
        calls.map (fun c => { time := c.timestamp, value := c.value, labels := c.labels }) := by
  have hstored : ∀ c ∈ calls, storedSample c =
      { time := c.timestamp, value := c.value, labels := c.labels } := by
    intro c hc
    unfold storedSample
    rw [if_neg (hcalls c hc).1]
  constructor
  · intro before c after hsplit
    rw [runInserts_append, runInserts_cons, runInserts_nil, insertSample_values,
      hstored c (by rw [hsplit]; simp)]
  · rw [visited_of_all_true _ _ _ _ _ hcb, runInserts_values]
    show candidates time_begin time_end ([] ++ calls.map storedSample) = _
    rw [List.nil_append, candidates_of_all_in_range, List.map_map]
    · apply List.map_congr_left
      intro c hc
      show toSample (storedSample c) = _
      rw [hstored c hc]
      rfl
    · intro s hs
      obtain ⟨c, hc, rfl⟩ := List.mem_map.1 hs
      rw [hstored c hc]
      exact (hcalls c hc).2

/-- C7, instantiated on the scenario of the specification: inserting
`(0.5, [("host","a")], 1000)` and then `(0.9, [("host","b")], 2000)` and scanning `(0, 3000)`
yields both samples in that order. -/
theorem insert_appends_in_call_order_witness :
    visited ((runInserts (Metric.new "cpu") scenarioCalls).scanSamples 0 3000
        alwaysContinue ()) =
      [{ time := 1000, value := value_0_5, labels := [("host", "a")] },
       { time := 2000, value := value_0_9, labels := [("host", "b")] }] :=
  (insert_appends_in_call_order "cpu" scenarioCalls 0 3000 alwaysContinue ()
    (fun _ _ => rfl) (by decide)).2

/-- C10 (`totalBytes` is constant zero). After any finite sequence of insert and scan calls on
a freshly constructed metric, `totalBytes()` returns 0. -/
theorem totalBytes_eq_zero (key : String) (calls : List (Call σ)) :
    (runCalls (Metric.new key) calls).totalBytes = 0 := by
  unfold Metric.totalBytes
  rw [runCalls_total]
  rfl

end Insert

end inmemory_backend
end metricdb
end fnordmetric

/-! ### The HTTP ingestion handler -/

namespace fnordmetric
namespace metricdb

open inmemory_backend

/-- A request rejected by one of the three early checks (no `metric`, no `value`, or a `value`
that `std::stod` does not convert) gets status 400, invokes no core operation and leaves the
repository as it was. -/
theorem insertSample_rejected_before_core (stod : String → Option Double)
    (lexical_cast : String → Option Nat) (now : Nat) (repo : MetricRepository)
    (params : ParamList)
    (h : getParam params "metric" = none ∨ getParam params "value" = none ∨
      (getParam params "value").bind stod = none) :
    (HTTPAPI.insertSample stod lexical_cast now repo params).calls = [] ∧
      (HTTPAPI.insertSample stod lexical_cast now repo params).repo = repo ∧
      (HTTPAPI.insertSample stod lexical_cast now repo params).status =
        some HTTPStatus.kStatusBadRequest := by
  cases hm : getParam params "metric" with
  | none =>
    unfold HTTPAPI.insertSample
    simp [hm]
  | some metric_key =>
    cases hv : getParam params "value" with
    | none =>
      unfold HTTPAPI.insertSample
      simp [hm, hv]
    | some value_str =>
      cases hs : stod value_str with
      | none =>
        unfold HTTPAPI.insertSample
        simp [hm, hv, hs]
      | some sample_value =>
        rw [hm, hv] at h
        simp [hs] at h

/-- C8 (the code where it departs from the claim). For a request whose `metric` and `value`
parameters are present, whose value converts, and whose `timestamp` parameter is present but is
not converted by `boost::lexical_cast<uint64_t>`: the handler has already invoked
`findOrCreateMetric` when the conversion fails, the exception leaves the handler with no status
set, and when the key was not registered before, the repository has changed. -/
theorem insertSample_bad_timestamp_after_findOrCreate (stod : String → Option Double)
    (lexical_cast : String → Option Nat) (now : Nat) (repo : MetricRepository)
    (params : ParamList) (metric_key value_str timestamp_str : String) (sample_value : Double)
    (hm : getParam params "metric" = some metric_key)
    (hv : getParam params "value" = some value_str)
    (hs : stod value_str = some sample_value)
    (ht : getParam params "timestamp" = some timestamp_str)
    (hl : lexical_cast timestamp_str = none) :
    (HTTPAPI.insertSample stod lexical_cast now repo params).calls =
        [CoreCall.findOrCreateMetric metric_key] ∧
      (HTTPAPI.insertSample stod lexical_cast now repo params).thrown = true ∧
      (HTTPAPI.insertSample stod lexical_cast now repo params).status = none ∧
      (HTTPAPI.insertSample stod lexical_cast now repo params).repo =
        findOrCreateMetric repo metric_key ∧
      (findMetric repo metric_key = none →
        (HTTPAPI.insertSample stod lexical_cast now repo params).repo ≠ repo) := by
  have hout : HTTPAPI.insertSample stod lexical_cast now repo params =
      { repo := findOrCreateMetric repo metric_key,
        calls := [CoreCall.findOrCreateMetric metric_key],
        status := none, body := "", thrown := true } := by
    unfold HTTPAPI.insertSample
    simp only [hm, hv, hs, ht, hl]
  rw [hout]
  refine ⟨rfl, rfl, rfl, rfl, ?_⟩
  intro hnone hrepo
  have hlen := congrArg List.length hrepo
  simp [findOrCreateMetric, hnone] at hlen

/-- C8, at a concrete request: `metric=cpu&value=1.5&label[host]=a&timestamp=abc` on an empty
repository invokes `findOrCreateMetric("cpu")`, ends with an exception and leaves the metric
`cpu` registered. -/
theorem insertSample_bad_timestamp_after_findOrCreate_witness :
    (HTTPAPI.insertSample stodExample lexicalCastExample 1400000000000000 []
        badTimestampParams).calls = [CoreCall.findOrCreateMetric "cpu"] ∧
      (HTTPAPI.insertSample stodExample lexicalCastExample 1400000000000000 []
        badTimestampParams).thrown = true ∧
      (HTTPAPI.insertSample stodExample lexicalCastExample 1400000000000000 []
        badTimestampParams).status = none ∧
      (HTTPAPI.insertSample stodExample lexicalCastExample 1400000000000000 []
        badTimestampParams).repo = findOrCreateMetric [] "cpu" ∧
      (findMetric [] "cpu" = none →
        (HTTPAPI.insertSample stodExample lexicalCastExample 1400000000000000 []
          badTimestampParams).repo ≠ []) :=
  insertSample_bad_timestamp_after_findOrCreate stodExample lexicalCastExample
    1400000000000000 [] badTimestampParams "cpu" "1.5" "abc" 0x3FF8000000000000
    (by decide) (by decide) (by decide) (by decide) (by decide)

end metricdb
end fnordmetric
